import Mathlib

/-!
Verification of the sediment-unmixing numerical core.

Shallow embedding of the Python sources (`MixtureModel.py`,
`detritalPopulation.py`, `populationMetrics.py`, `PermutationCompare.py`)
into Lean.  Machine floats are modelled by `ℚ` where the computation is
rational arithmetic, and by `ℝ` where the source evaluates transcendental
functions (Gaussian kernels).  Arrays are modelled by lists.
-/

namespace SedimentUnmixing

/-! ## MixtureModel.getMixes / getMixesHelper

Source `MixtureModel.py`, lines 37-85.  `getMixesHelper(nParents, nSteps,
maxSteps)` recursively enumerates mixing-coefficient vectors:
for one parent the single coefficient is `(maxSteps-1)/(nSteps-1)`;
otherwise the first coefficient ranges over `i/(nSteps-1)` for
`i in range(maxSteps)` and the remainder is enumerated with the residual
budget `maxSteps - i`.  The Python function is only ever invoked with
`nParents >= 1`; the `0` case below is an arbitrary value never reached
(Python would recurse without terminating there). -/

def getMixesHelper : ℕ → ℕ → ℕ → List (List ℚ)
  | 0, _, _ => []
  | 1, nSteps, maxSteps => [[((maxSteps : ℚ) - 1) / ((nSteps : ℚ) - 1)]]
  | (n + 2), nSteps, maxSteps =>
      (List.range maxSteps).flatMap (fun i =>
        (getMixesHelper (n + 1) nSteps (maxSteps - i)).map
          (fun sub => ((i : ℚ) / ((nSteps : ℚ) - 1)) :: sub))

/-- Source `MixtureModel.py`, lines 37-56: `getMixes(nParents, nSteps)`. -/
def getMixes (nParents nSteps : ℕ) : List (List ℚ) :=
  getMixesHelper nParents nSteps nSteps

/-- Source `MixtureModel.py`, lines 197-204:
`MixtureModel.getMixingCoefficients(dFrac)` calls
`getMixes(nParents, int(1.0/dFrac) + 1)`; for positive `dFrac` the float
truncation `np.int` is the floor. -/
def getMixingCoefficients (nParents : ℕ) (dFrac : ℚ) : List (List ℚ) :=
  getMixes nParents ((Rat.floor ((1 : ℚ) / dFrac)).toNat + 1)

/-! ## MixtureModel.sortMixtures

Source `MixtureModel.py`, lines 178-189.  `np.argsort` returns some
permutation of the index range that puts the values in ascending order;
the embedding picks the stable such permutation (insertion sort on
indices).  `'reverse'` flips the index order (`sortIdcs[::-1]`), and both
stored arrays are then indexed by the same permutation. -/

def argsort (vals : List ℚ) : List ℕ :=
  List.insertionSort (fun i j => vals.getD i 0 ≤ vals.getD j 0)
    (List.range vals.length)

/-- Python's `str.lower()`, character by character. -/
def strLower (s : String) : String := ⟨s.data.map Char.toLower⟩

def sortMixtures (vals : List ℚ) (coeffs : List (List ℚ))
    (mixtureOrder : String) : List ℚ × List (List ℚ) :=
  let sortIdcs := argsort vals
  let sortIdcs := if strLower mixtureOrder = "reverse" then sortIdcs.reverse
    else sortIdcs
  (sortIdcs.map (fun i => vals.getD i 0), sortIdcs.map (fun i => coeffs.getD i []))

/-! ## detritalPopulation.population

Source `detritalPopulation.py`.  The attributes of a `population` instance
that the claims touch; `ages`, `errors` and `n` are `None` on populations
built from a parent mixture, hence `Option`. -/

structure Population where
  ages : Option (List ℚ) := none
  errors : Option (List ℚ) := none
  n : Option ℕ := none
  tAxisCDF : List ℚ := []
  tAxisDF : List ℚ := []
  CDF : List ℚ := []
  densFunc : List ℚ := []
deriving DecidableEq, Inhabited

/-- The accumulation loop of `_createFromParentMixture_`
(source `detritalPopulation.py`, lines 252-258): running coefficient sum
plus element-wise accumulation `mixed += m * parent.array` for the CDF and
the density array. -/
def mixStep (acc : ℚ × List ℚ × List ℚ) (mp : ℚ × Population) :
    ℚ × List ℚ × List ℚ :=
  (acc.1 + mp.1,
   List.zipWith (fun a x => a + mp.1 * x) acc.2.1 mp.2.CDF,
   List.zipWith (fun a x => a + mp.1 * x) acc.2.2 mp.2.densFunc)

def mixLoop (pairs : List (ℚ × Population)) (cdf0 df0 : List ℚ) :
    ℚ × List ℚ × List ℚ :=
  pairs.foldl mixStep (0, cdf0, df0)

/-- Source `detritalPopulation.py`, lines 237-264:
`population._createFromParentMixture_`.  Copies the first parent, clears
`n`, `ages`, `errors`, accumulates the weighted CDF/density arrays starting
from zero arrays (`np.zeros_like(parent0.array)`), and divides by the
actual coefficient sum.  Python pairs the `i`-th coefficient with the
`i`-th parent (`enumerate`), which the `zip` mirrors. -/
def createFromParentMixture (parentPopulations : List Population)
    (mixingCoefficients : List ℚ) : Population :=
  let p0 := parentPopulations.headD default
  let res := mixLoop (mixingCoefficients.zip parentPopulations)
      (List.replicate p0.CDF.length 0) (List.replicate p0.densFunc.length 0)
  { p0 with
    n := none, ages := none, errors := none,
    CDF := res.2.1.map (fun x => x / res.1),
    densFunc := res.2.2.map (fun x => x / res.1) }

/-! ## populationMetrics -/

/-- Attribute lookup `pop._tAxisPDF_`, as read by the axis guard of
`likeness` (source `populationMetrics.py`, line 194).  No code in the
repository ever assigns `_tAxisPDF_` on a population — the class stores
the density axis as `_tAxisDF_` (`detritalPopulation.py`, line 409), and
`_copyFrom_` only copies attributes that already exist — so the lookup
finds no attribute on any population instance. -/
def tAxisPDF (_pop : Population) : Option (List ℚ) := none

/-- Source `populationMetrics.py`, lines 175-198: `likeness(pop1, pop2)`.
Line 194 evaluates `pop1._tAxisPDF_ == pop2._tAxisPDF_`; accessing the
never-assigned attribute `_tAxisPDF_` raises `AttributeError`, so the
final line `return 1.0 - np.sum(np.abs(pop1.densFunc -
pop2.densFunc))/2.0` is unreachable on population instances. -/
def likeness (pop1 pop2 : Population) : Except String ℚ :=
  match tAxisPDF pop1, tAxisPDF pop2 with
  | some _, some _ =>
      .ok (1 - (List.zipWith (fun a b => |a - b|)
        pop1.densFunc pop2.densFunc).sum / 2)
  | _, _ =>
      .error "AttributeError: population object has no attribute _tAxisPDF_"

/-- Source `populationMetrics.py`, lines 217-235: `KSTest(pop1, pop2)`
delegates to `scipy.stats.ks_2samp(pop1.ages, pop2.ages)`.  The external
scipy routine is a parameter (`ks_2samp_pvalue`); it is only defined on
actual age arrays, so the embedding returns `none` whenever either
population has `ages = None` (in Python, `ks_2samp(None, ...)` raises). -/
def KSTest (ks_2samp_pvalue : List ℚ → List ℚ → ℚ)
    (pop1 pop2 : Population) : Option ℚ :=
  match pop1.ages, pop2.ages with
  | some a1, some a2 => some (ks_2samp_pvalue a1 a2)
  | _, _ => none

/-! ## PermutationCompare.twoSampleProbability -/

/-- Source `PermutationCompare.py`, lines 128-137:
`twoSampleProbability.getPforVal(Val)`.  `np.sum(self._permVals > Val)`
counts the trial values strictly greater than `Val` (strictly smaller in
the other branch), and the count is divided by `self.nIters`. -/
def getPforVal (permVals : List ℚ) (nIters : ℕ)
    (areLargeValuesMoreDifferent : Bool) (Val : ℚ) : ℚ :=
  let nMoreDiff : ℕ :=
    if areLargeValuesMoreDifferent then
      permVals.countP (fun x => decide (Val < x))
    else
      permVals.countP (fun x => decide (x < Val))
  (nMoreDiff : ℚ) / (nIters : ℚ)

/-- Source `PermutationCompare.py`, lines 93-123.  One permutation trial:
`indices` is `hstack(zeros_like(pop1.ages), ones_like(pop2.ages))`, i.e.
`replicate n1 0 ++ replicate n2 1`; a random permutation of it,
`shuffledIndices`, selects `allAges[shuffledIndices == 0]` for the first
trial population and `allAges[shuffledIndices == 1]` for the second (ages
and errors are selected by the same mask, modelled as pairs). -/
def trialPops (shuffledIndices : List ℕ) (pooled : List (ℚ × ℚ)) :
    List (ℚ × ℚ) × List (ℚ × ℚ) :=
  (((shuffledIndices.zip pooled).filter (fun x => x.1 == 0)).map Prod.snd,
   ((shuffledIndices.zip pooled).filter (fun x => x.1 == 1)).map Prod.snd)

/-! ## detritalPopulation: time axes

Source `detritalPopulation.py`, lines 384-409 (`_getTimeAxisOfDF_`) and
453-477 (`_getTimeAxisOfCDF_`).  Keyword arguments `tmin`, `tmax`, `delt`
are optional; missing ones default to data-derived values. -/

structure AxisSpec where
  tmin : Option ℚ := none
  tmax : Option ℚ := none
  delt : Option ℚ := none
deriving DecidableEq

/-- `np.argmin`: index of the first occurrence of the minimum. -/
def argminIdx (l : List ℚ) : ℕ :=
  match l.min? with
  | some m => l.indexOf m
  | none => 0

/-- `np.argmax`: index of the first occurrence of the maximum. -/
def argmaxIdx (l : List ℚ) : ℕ :=
  match l.max? with
  | some m => l.indexOf m
  | none => 0

/-- `np.arange(tmin, tmax, delt)` for positive `delt`:
`ceil((tmax - tmin)/delt)` equally spaced points starting at `tmin`. -/
def arange (tmin tmax delt : ℚ) : List ℚ :=
  (List.range (Rat.ceil ((tmax - tmin) / delt)).toNat).map
    (fun k : ℕ => tmin + (k : ℚ) * delt)

/-- `population._getTimeAxisOfDF_(**kwargs)`: resolve `tmin`, `tmax`,
`delt` from the keyword arguments or the data defaults and return
`(delt, np.arange(tmin, tmax, delt))` (the source stores them as
`self._deltDF_` and `self._tAxisDF_`). -/
def getTimeAxisOfDF (ages errors : List ℚ) (spec : AxisSpec) : ℚ × List ℚ :=
  let tmin := match spec.tmin with
    | some t => t
    | none => ages.getD (argminIdx ages) 0 - 3 * errors.getD (argminIdx ages) 0
  let tmax := match spec.tmax with
    | some t => t
    | none => ages.getD (argmaxIdx ages) 0 + 3 * errors.getD (argmaxIdx ages) 0
  let delt := match spec.delt with
    | some d => d
    | none => (tmax - tmin) / 1000
  (delt, arange tmin tmax delt)

/-- `population._getTimeAxisOfCDF_(**kwargs)`: the same resolution rules
(the source duplicates the code), returning `(delt, axis)` for
`self._deltCDF_` and `self._tAxisCDF_`. -/
def getTimeAxisOfCDF (ages errors : List ℚ) (spec : AxisSpec) : ℚ × List ℚ :=
  let tmin := match spec.tmin with
    | some t => t
    | none => ages.getD (argminIdx ages) 0 - 3 * errors.getD (argminIdx ages) 0
  let tmax := match spec.tmax with
    | some t => t
    | none => ages.getD (argmaxIdx ages) 0 + 3 * errors.getD (argmaxIdx ages) 0
  let delt := match spec.delt with
    | some d => d
    | none => (tmax - tmin) / 1000
  (delt, arange tmin tmax delt)

/-- Source `detritalPopulation.py`, lines 412-451 (`population.calcCDF`),
`method='integrated pdf'` branch, invoked on a population whose density
estimate has not been computed yet.  The CDF axis is built from the
supplied keyword arguments (`self._getTimeAxisOfCDF_(**kwargs)`, line 435),
but the implicit density build on line 450 is `self.calcDF()` — with NO
keyword arguments — so `_getTimeAxisOfDF_` runs on the data-derived
defaults (`AxisSpec` all-`none`), and `self.CDF =
np.cumsum(self.densFunc * self._deltDF_)` is an array over that default
density axis.  Returned: `(tAxisCDF, deltDF, tAxisDF)`; the resulting CDF
array has the length of `tAxisDF` (cumsum preserves length), not of
`tAxisCDF`. -/
def calcCDF_integratedPDF_axes (ages errors : List ℚ) (spec : AxisSpec) :
    List ℚ × ℚ × List ℚ :=
  let cdfAxis := (getTimeAxisOfCDF ages errors spec).2
  let dfPair := getTimeAxisOfDF ages errors {}
  (cdfAxis, dfPair.1, dfPair.2)

end SedimentUnmixing

/-! ## detritalPopulation: density construction (real-valued)

The density estimators evaluate Gaussians, so this part of the embedding
lives over `ℝ`. -/

namespace SedimentUnmixing

/-- Source `detritalPopulation.py`, lines 479-485:
`population.normDistribution(i)` evaluated at one axis point `t` for a
grain with the given mean age and error. -/
noncomputable def normDistribution (mean error t : ℝ) : ℝ :=
  (1 / Real.sqrt (2 * error ^ 2 * Real.pi)) *
    Real.exp (-(t - mean) ^ 2 / (2 * error ^ 2))

/-- The un-normalized sum of per-grain Gaussians from `_getPDP_`
(source `detritalPopulation.py`, lines 343-346): `pdp = zeros_like(axis)`
then `pdp += self.normDistribution(i)` for each grain. -/
noncomputable def rawPDP (ages errors tAxisDF : List ℝ) : List ℝ :=
  tAxisDF.map (fun t =>
    ((ages.zip errors).map (fun ae => normDistribution ae.1 ae.2 t)).sum)

/-- Source `detritalPopulation.py`, lines 335-350: `population._getPDP_`.
The summed kernel array divided by `np.sum(pdp * self._deltDF_)`, which
equals `pdp.sum * deltDF`. -/
noncomputable def getPDP (ages errors tAxisDF : List ℝ) (deltDF : ℝ) :
    List ℝ :=
  let pdp := rawPDP ages errors tAxisDF
  pdp.map (fun x => x / (pdp.sum * deltDF))

/-- The default kernel of `_getKDE_` (source `detritalPopulation.py`,
line 374): `lambda t: (1/np.sqrt(2.0*np.pi))*np.exp((-t**2)/2)`. -/
noncomputable def gaussKernel (t : ℝ) : ℝ :=
  (1 / Real.sqrt (2 * Real.pi)) * Real.exp (-t ^ 2 / 2)

/-- Source `detritalPopulation.py`, lines 352-382: `population._getKDE_`.
`KDE += Kernel((axis - age)/bandwidth)` for every grain, then the result
is scaled by `1/(self.n * bandwidth)`; no renormalization follows. -/
noncomputable def getKDE (Kernel : ℝ → ℝ) (bandwidth : ℝ)
    (ages tAxisDF : List ℝ) : List ℝ :=
  (tAxisDF.map (fun t =>
      (ages.map (fun age => Kernel ((t - age) / bandwidth))).sum)).map
    (fun x => 1 / ((ages.length : ℝ) * bandwidth) * x)

end SedimentUnmixing

namespace SedimentUnmixing

/-! ### Lattice-point characterization of the enumeration -/

lemma sum_map_div_nat (ks : List ℕ) (c : ℚ) :
    (ks.map (fun k : ℕ => (k : ℚ) / c)).sum = ((ks.sum : ℕ) : ℚ) / c := by
  induction ks with
  | nil => simp
  | cons a t ih =>
      simp only [List.map_cons, List.sum_cons, ih]
      push_cast
      rw [add_div]

lemma getMixesHelper_sound :
    ∀ (N n m : ℕ), 1 ≤ N → 1 ≤ m →
      ∀ v ∈ getMixesHelper N n m, ∃ ks : List ℕ, ks.length = N ∧
        ks.sum = m - 1 ∧ v = ks.map (fun k : ℕ => (k : ℚ) / ((n : ℚ) - 1))
  | 0, _, _, hN, _ => by omega
  | 1, n, m, _, hm => by
      intro v hv
      simp only [getMixesHelper, List.mem_singleton] at hv
      refine ⟨[m - 1], by simp, by simp, ?_⟩
      simp [hv, Nat.cast_sub hm]
  | (N + 2), n, m, _, hm => by
      intro v hv
      simp only [getMixesHelper, List.mem_flatMap, List.mem_map,
        List.mem_range] at hv
      obtain ⟨i, hi, sub, hsub, rfl⟩ := hv
      obtain ⟨ks, hkl, hks, rfl⟩ :=
        getMixesHelper_sound (N + 1) n (m - i) (by omega) (by omega) sub hsub
      exact ⟨i :: ks, by simp [hkl], by simp [hks]; omega, by simp⟩

lemma getMixesHelper_complete :
    ∀ (N n m : ℕ), 1 ≤ m →
      ∀ ks : List ℕ, ks.length = N → 1 ≤ N → ks.sum = m - 1 →
        ks.map (fun k : ℕ => (k : ℚ) / ((n : ℚ) - 1)) ∈ getMixesHelper N n m
  | 0, _, _, _ => by omega
  | 1, n, m, hm => by
      intro ks hl _ hs
      match ks, hl with
      | [k], _ =>
        simp only [List.sum_cons, List.sum_nil, Nat.add_zero] at hs
        subst hs
        simp [getMixesHelper, Nat.cast_sub hm]
  | (N + 2), n, m, hm => by
      intro ks hl _ hs
      match ks, hl with
      | k :: rest, hl =>
        simp only [List.length_cons, Nat.add_right_cancel_iff] at hl
        simp only [List.sum_cons] at hs
        have hk : k < m := by omega
        have hrest : rest.sum = (m - k) - 1 := by omega
        have hmem := getMixesHelper_complete (N + 1) n (m - k) (by omega)
          rest hl (by omega) hrest
        simp only [getMixesHelper, List.mem_flatMap, List.mem_map,
          List.mem_range]
        exact ⟨k, hk, rest.map (fun j : ℕ => (j : ℚ) / ((n : ℚ) - 1)), hmem, rfl⟩

/-! ## Claim C1 -/

/-- C1: for every number of parents `N ≥ 1` and step count
`steps = int(1/dFrac)+1 ≥ 2`, the enumeration produces exactly the lattice
points of the `(N-1)`-simplex at spacing `1/(steps-1)`: every produced
vector has `N` entries of the form `k/(steps-1)` and sums exactly to `1`,
and conversely every `N`-tuple of naturals summing to `steps-1` is
produced.  In particular `getMixingCoefficients` at `dFrac = 1/10`
produces for `N = 2` exactly the 11 vectors `[0,1], [1/10,9/10], …, [1,0]`
and for `N = 3` exactly `C(12,2) = 66` vectors, each summing to `1`. -/
theorem C1_getMixingCoefficients_enumerates_simplex (N steps : ℕ)
    (hN : 1 ≤ N) (hs : 2 ≤ steps) :
    (∀ v ∈ getMixes N steps, v.length = N ∧ v.sum = 1 ∧
      ∃ ks : List ℕ, ks.sum = steps - 1 ∧
        v = ks.map (fun k : ℕ => (k : ℚ) / ((steps : ℚ) - 1))) ∧
    (∀ ks : List ℕ, ks.length = N → ks.sum = steps - 1 →
      ks.map (fun k : ℕ => (k : ℚ) / ((steps : ℚ) - 1)) ∈ getMixes N steps) ∧
    getMixingCoefficients 2 (1/10) =
      [[0, 1], [1/10, 9/10], [2/10, 8/10], [3/10, 7/10], [4/10, 6/10],
       [5/10, 5/10], [6/10, 4/10], [7/10, 3/10], [8/10, 2/10],
       [9/10, 1/10], [1, 0]] ∧
    (getMixingCoefficients 3 (1/10)).length = 66 ∧
    (∀ v ∈ getMixingCoefficients 3 (1/10), v.sum = 1) := by
  have hne : ((steps : ℚ) - 1) ≠ 0 := by
    have : (2 : ℚ) ≤ (steps : ℚ) := by exact_mod_cast hs
    intro h
    have : (steps : ℚ) = 1 := by linarith [sub_eq_zero.mp h]
    linarith
  refine ⟨?_, ?_, ?_, ?_, ?_⟩
  · intro v hv
    obtain ⟨ks, hkl, hks, rfl⟩ :=
      getMixesHelper_sound N steps steps hN (by omega) v hv
    refine ⟨by simp [hkl], ?_, ks, hks, rfl⟩
    rw [sum_map_div_nat, hks, Nat.cast_sub (by omega)]
    simp [hne]
  · intro ks h1 h2
    exact getMixesHelper_complete N steps steps (by omega) ks h1 hN h2
  · with_unfolding_all decide
  · with_unfolding_all decide
  · with_unfolding_all decide

/-- Witness for C1 at the concrete input `N = 3`, `steps = 11`. -/
theorem C1_witness : (getMixingCoefficients 3 (1/10)).length = 66 :=
  (C1_getMixingCoefficients_enumerates_simplex 3 11 (by decide)
    (by decide)).2.2.2.1

/-! ## Claim C2 -/

lemma argsort_perm (vals : List ℚ) :
    (argsort vals).Perm (List.range vals.length) :=
  List.perm_insertionSort _ _

lemma argsort_sorted (vals : List ℚ) :
    (argsort vals).Pairwise (fun i j => vals.getD i 0 ≤ vals.getD j 0) := by
  haveI : IsTotal ℕ (fun i j => vals.getD i 0 ≤ vals.getD j 0) :=
    ⟨fun _ _ => le_total _ _⟩
  haveI : IsTrans ℕ (fun i j => vals.getD i 0 ≤ vals.getD j 0) :=
    ⟨fun _ _ _ hab hbc => le_trans hab hbc⟩
  exact List.sorted_insertionSort _ _

lemma pairwise_getD_succ {r : ℚ → ℚ → Prop} {l : List ℚ} (h : l.Pairwise r) :
    ∀ i, i + 1 < l.length → r (l.getD i 0) (l.getD (i + 1) 0) := by
  intro i hi
  rw [List.getD_eq_getElem l 0 (by omega), List.getD_eq_getElem l 0 hi]
  exact List.pairwise_iff_getElem.mp h i (i + 1) (by omega) hi (by omega)

lemma pairwise_getD_head {r : ℚ → ℚ → Prop} {l : List ℚ} (h : l.Pairwise r) :
    ∀ x ∈ l, x = l.getD 0 0 ∨ r (l.getD 0 0) x := by
  intro x hx
  cases l with
  | nil => simp at hx
  | cons a t =>
    rcases List.mem_cons.mp hx with rfl | hxt
    · simp
    · right
      simpa using List.rel_of_pairwise_cons h hxt

lemma sortMixtures_normal (vals : List ℚ) (coeffs : List (List ℚ)) :
    sortMixtures vals coeffs "normal" =
      ((argsort vals).map (fun i => vals.getD i 0),
       (argsort vals).map (fun i => coeffs.getD i [])) := by
  simp only [sortMixtures]
  rw [if_neg (by decide)]

lemma sortMixtures_reverse (vals : List ℚ) (coeffs : List (List ℚ)) :
    sortMixtures vals coeffs "reverse" =
      ((argsort vals).reverse.map (fun i => vals.getD i 0),
       (argsort vals).reverse.map (fun i => coeffs.getD i [])) := by
  simp only [sortMixtures]
  rw [if_pos (by decide)]

lemma map_getD_range_zip (vals : List ℚ) (coeffs : List (List ℚ))
    (h : coeffs.length = vals.length) :
    (List.range vals.length).map (fun i => (vals.getD i 0, coeffs.getD i []))
      = vals.zip coeffs := by
  apply List.ext_getElem
  · simp [h]
  · intro i h1 h2
    simp only [List.getElem_map, List.getElem_range, List.getElem_zip]
    rw [List.getD_eq_getElem, List.getD_eq_getElem]

lemma sortMixtures_zip_perm (vals : List ℚ) (coeffs : List (List ℚ))
    (hlen : coeffs.length = vals.length) (idcs : List ℕ)
    (hperm : idcs.Perm (List.range vals.length)) :
    ((idcs.map (fun i => vals.getD i 0)).zip
        (idcs.map (fun i => coeffs.getD i []))).Perm (vals.zip coeffs) := by
  rw [List.zip_map']
  have := hperm.map (fun i => (vals.getD i 0, coeffs.getD i []))
  rwa [map_getD_range_zip vals coeffs hlen] at this

/-- C2: after `sortMixtures('normal')` the stored objective values are
ascending (`value[i] ≤ value[i+1]`), after `'reverse'` descending; in
both cases index 0 holds the best-fit value (the minimum for `'normal'`,
the maximum for `'reverse'`), and the two stored arrays are permuted by
the same index order, so the multiset of (value, coefficient-vector)
pairs is preserved. -/
theorem C2_sortMixtures_sorts_and_pairs (vals : List ℚ)
    (coeffs : List (List ℚ)) (hlen : coeffs.length = vals.length) :
    (∀ i, i + 1 < (sortMixtures vals coeffs "normal").1.length →
      (sortMixtures vals coeffs "normal").1.getD i 0 ≤
        (sortMixtures vals coeffs "normal").1.getD (i + 1) 0) ∧
    (∀ i, i + 1 < (sortMixtures vals coeffs "reverse").1.length →
      (sortMixtures vals coeffs "reverse").1.getD (i + 1) 0 ≤
        (sortMixtures vals coeffs "reverse").1.getD i 0) ∧
    (∀ x ∈ (sortMixtures vals coeffs "normal").1,
      (sortMixtures vals coeffs "normal").1.getD 0 0 ≤ x) ∧
    (∀ x ∈ (sortMixtures vals coeffs "reverse").1,
      x ≤ (sortMixtures vals coeffs "reverse").1.getD 0 0) ∧
    ((sortMixtures vals coeffs "normal").1.zip
      (sortMixtures vals coeffs "normal").2).Perm (vals.zip coeffs) ∧
    ((sortMixtures vals coeffs "reverse").1.zip
      (sortMixtures vals coeffs "reverse").2).Perm (vals.zip coeffs) := by
  have hnorm := sortMixtures_normal vals coeffs
  have hrev := sortMixtures_reverse vals coeffs
  have hsortN : ((argsort vals).map (fun i => vals.getD i 0)).Pairwise (· ≤ ·) :=
    (argsort_sorted vals).map _ (fun a b hab => hab)
  have hsortR :
      ((argsort vals).reverse.map (fun i => vals.getD i 0)).Pairwise (· ≥ ·) := by
    refine List.Pairwise.map _ (fun a b hab => hab) ?_
    rw [List.pairwise_reverse]
    exact argsort_sorted vals
  refine ⟨?_, ?_, ?_, ?_, ?_, ?_⟩
  · rw [hnorm]
    exact pairwise_getD_succ hsortN
  · rw [hrev]
    exact pairwise_getD_succ hsortR
  · rw [hnorm]
    intro x hx
    rcases pairwise_getD_head hsortN x hx with h | h
    · exact le_of_eq h.symm
    · exact h
  · rw [hrev]
    intro x hx
    rcases pairwise_getD_head hsortR x hx with h | h
    · exact le_of_eq h
    · exact h
  · rw [hnorm]
    exact sortMixtures_zip_perm vals coeffs hlen _ (argsort_perm vals)
  · rw [hrev]
    exact sortMixtures_zip_perm vals coeffs hlen _
      ((argsort vals).reverse_perm.trans (argsort_perm vals))

/-- Witness for C2 at a concrete input. -/
theorem C2_witness :
    ((sortMixtures [3, 1, 2] [[1, 0], [0, 1], [1, 1]] "normal").1.zip
      (sortMixtures [3, 1, 2] [[1, 0], [0, 1], [1, 1]] "normal").2).Perm
      (([3, 1, 2] : List ℚ).zip [[1, 0], [0, 1], [1, 1]]) :=
  (C2_sortMixtures_sorts_and_pairs [3, 1, 2] [[1, 0], [0, 1], [1, 1]]
    (by decide)).2.2.2.2.1

/-! ## Claim C3 -/

/-- C4 counterexample: with the single trial value `5` and
`largerIsMoreDifferent = true`, looking up the p-value of `5` itself
returns `0` — the tied trial value is NOT counted — whereas the claimed
non-strict rule (fraction of trial values `≥ 5`) gives `1`. -/
theorem C4_counterexample :
    getPforVal [5] 1 true 5 ≠
      ((([(5 : ℚ)].countP (fun x => decide ((5 : ℚ) ≤ x))) : ℚ) / 1) ∧
    getPforVal [5] 1 true 5 = 0 ∧
    ((([(5 : ℚ)].countP (fun x => decide ((5 : ℚ) ≤ x))) : ℚ) / 1) = 1 := by
  with_unfolding_all decide

lemma countP_gt_add_count (t : List ℚ) (v : ℚ) :
    t.countP (fun x => decide (v < x)) + t.count v =
      t.countP (fun x => decide (v ≤ x)) := by
  induction t with
  | nil => simp
  | cons a s ih =>
    simp only [List.countP_cons, List.count_cons, beq_iff_eq,
      decide_eq_true_eq]
    rcases lt_trichotomy v a with h | h | h
    · rw [if_pos h, if_neg (fun e => absurd e.symm (ne_of_lt h)),
        if_pos h.le]
      omega
    · subst h
      rw [if_neg (lt_irrefl v), if_pos rfl, if_pos le_rfl]
      omega
    · rw [if_neg (not_lt_of_gt h), if_neg (ne_of_lt h),
        if_neg (not_le_of_gt h)]
      omega

lemma countP_lt_add_count (t : List ℚ) (v : ℚ) :
    t.countP (fun x => decide (x < v)) + t.count v =
      t.countP (fun x => decide (x ≤ v)) := by
  induction t with
  | nil => simp
  | cons a s ih =>
    simp only [List.countP_cons, List.count_cons, beq_iff_eq,
      decide_eq_true_eq]
    rcases lt_trichotomy a v with h | h | h
    · rw [if_pos h, if_neg (ne_of_lt h), if_pos h.le]
      omega
    · subst h
      rw [if_neg (lt_irrefl a), if_pos rfl, if_pos le_rfl]
      omega
    · rw [if_neg (not_lt_of_gt h), if_neg (fun e => absurd e.symm (ne_of_lt h)),
        if_neg (not_le_of_gt h)]
      omega

/-- C4 amended: `getPforVal` uses strict comparisons: with the flag set it
returns the fraction of trial values strictly greater than `v`, otherwise
strictly smaller; trial values tied with `v` are excluded from the count
(adding the tie count back recovers the non-strict count the claim
describes). -/
theorem C4_getPforVal_strict (permVals : List ℚ) (nIters : ℕ) (v : ℚ) :
    getPforVal permVals nIters true v =
      ((permVals.countP (fun x => decide (v < x))) : ℚ) / nIters ∧
    getPforVal permVals nIters false v =
      ((permVals.countP (fun x => decide (x < v))) : ℚ) / nIters ∧
    permVals.countP (fun x => decide (v < x)) + permVals.count v =
      permVals.countP (fun x => decide (v ≤ x)) ∧
    permVals.countP (fun x => decide (x < v)) + permVals.count v =
      permVals.countP (fun x => decide (x ≤ v)) :=
  ⟨rfl, rfl, countP_gt_add_count permVals v, countP_lt_add_count permVals v⟩

/-! ## Claim C10 -/

/-- C10: a population built from `parentPopulations`/`mixingCoefficients`
has `ages = None`, `errors = None`, `n = None`, so `KSTest` — which reads
the raw age arrays and hands them to `scipy.stats.ks_2samp` — is undefined
whenever a mixed population appears on either side, for every underlying
scipy statistic. -/
theorem C10_mixed_population_has_no_raw_data
    (parents : List Population) (coeffs : List ℚ)
    (ks_2samp_pvalue : List ℚ → List ℚ → ℚ) (q : Population) :
    (createFromParentMixture parents coeffs).ages = none ∧
    (createFromParentMixture parents coeffs).errors = none ∧
    (createFromParentMixture parents coeffs).n = none ∧
    KSTest ks_2samp_pvalue (createFromParentMixture parents coeffs) q = none ∧
    KSTest ks_2samp_pvalue q (createFromParentMixture parents coeffs) = none := by
  refine ⟨rfl, rfl, rfl, rfl, ?_⟩
  rcases hq : q.ages with _ | a <;> simp [KSTest, createFromParentMixture, hq]

/-! ## Claim C6 -/

lemma zipWith_addMul_replicate (c : ℚ) (l : List ℚ) :
    List.zipWith (fun a x => a + c * x) (List.replicate l.length 0) l =
      l.map (fun x => c * x) := by
  induction l with
  | nil => rfl
  | cons a t ih => simp [List.replicate_succ, ih]

lemma zipWith_addMul_map (c c' : ℚ) (l : List ℚ) :
    List.zipWith (fun a x => a + c * x) (l.map (fun x => c' * x)) l =
      l.map (fun x => (c' + c) * x) := by
  induction l with
  | nil => rfl
  | cons a t ih => simp [ih, add_mul]

lemma getD_zipWith_addMul (a b : List ℚ) (c : ℚ) (k : ℕ)
    (hk : k < a.length) (hk' : k < b.length) :
    (List.zipWith (fun x y => x + c * y) a b).getD k 0 =
      a.getD k 0 + c * b.getD k 0 := by
  rw [List.getD_eq_getElem _ _ (by simp [List.length_zipWith]; omega),
    List.getD_eq_getElem _ _ hk, List.getD_eq_getElem _ _ hk',
    List.getElem_zipWith]

lemma getD_map_div (l : List ℚ) (c : ℚ) (k : ℕ) :
    (l.map (fun x => x / c)).getD k 0 = l.getD k 0 / c := by
  by_cases h : k < l.length
  · rw [List.getD_eq_getElem _ _ (by simpa using h),
      List.getD_eq_getElem _ _ h, List.getElem_map]
  · rw [List.getD_eq_default _ _ (by simpa using not_lt.mp h),
      List.getD_eq_default _ _ (by simpa using not_lt.mp h), zero_div]

lemma getD_replicate_zero (n k : ℕ) :
    (List.replicate n (0 : ℚ)).getD k 0 = 0 := by
  by_cases h : k < n
  · rw [List.getD_eq_getElem _ _ (by simpa using h)]
    simp
  · rw [List.getD_eq_default _ _ (by simpa using not_lt.mp h)]

lemma mixFold_spec (pairs : List (ℚ × Population)) (L1 L2 : ℕ) :
    (∀ q ∈ pairs, q.2.CDF.length = L1 ∧ q.2.densFunc.length = L2) →
    ∀ acc : ℚ × List ℚ × List ℚ, acc.2.1.length = L1 → acc.2.2.length = L2 →
      (pairs.foldl mixStep acc).1 = acc.1 + (pairs.map Prod.fst).sum ∧
      (pairs.foldl mixStep acc).2.1.length = L1 ∧
      (pairs.foldl mixStep acc).2.2.length = L2 ∧
      (∀ k, k < L1 → (pairs.foldl mixStep acc).2.1.getD k 0 =
        acc.2.1.getD k 0 +
          (pairs.map (fun mp => mp.1 * mp.2.CDF.getD k 0)).sum) ∧
      (∀ k, k < L2 → (pairs.foldl mixStep acc).2.2.getD k 0 =
        acc.2.2.getD k 0 +
          (pairs.map (fun mp => mp.1 * mp.2.densFunc.getD k 0)).sum) := by
  induction pairs with
  | nil => intro _ acc h1 h2; simp [h1, h2]
  | cons mp rest ih =>
    intro hlen acc h1 h2
    have hmp := hlen mp (List.mem_cons_self mp rest)
    have hlen' : ∀ q ∈ rest, q.2.CDF.length = L1 ∧ q.2.densFunc.length = L2 :=
      fun q hq => hlen q (List.mem_cons_of_mem _ hq)
    have hacc1 : (mixStep acc mp).2.1.length = L1 := by
      simp [mixStep, List.length_zipWith, h1, hmp.1]
    have hacc2 : (mixStep acc mp).2.2.length = L2 := by
      simp [mixStep, List.length_zipWith, h2, hmp.2]
    obtain ⟨ha, hb, hc, hd, he⟩ := ih hlen' (mixStep acc mp) hacc1 hacc2
    rw [List.foldl_cons]
    refine ⟨?_, hb, hc, ?_, ?_⟩
    · rw [ha]
      simp [mixStep, add_assoc]
    · intro k hk
      rw [hd k hk]
      have : (mixStep acc mp).2.1.getD k 0 =
          acc.2.1.getD k 0 + mp.1 * mp.2.CDF.getD k 0 :=
        getD_zipWith_addMul acc.2.1 mp.2.CDF mp.1 k (h1 ▸ hk) (hmp.1 ▸ hk)
      rw [this]
      simp [add_assoc]
    · intro k hk
      rw [he k hk]
      have : (mixStep acc mp).2.2.getD k 0 =
          acc.2.2.getD k 0 + mp.1 * mp.2.densFunc.getD k 0 :=
        getD_zipWith_addMul acc.2.2 mp.2.densFunc mp.1 k (h2 ▸ hk) (hmp.2 ▸ hk)
      rw [this]
      simp [add_assoc]

/-- C6: mixing two identical parents with coefficients `[1/2, 1/2]`
reproduces the parent's CDF and density arrays exactly; and in general the
mixed arrays are, entry by entry, the coefficient-weighted sums of the
parents' arrays divided by the coefficient vector's actual sum. -/
theorem C6_mixture_linearity :
    (∀ p : Population,
      (createFromParentMixture [p, p] [1/2, 1/2]).CDF = p.CDF ∧
      (createFromParentMixture [p, p] [1/2, 1/2]).densFunc = p.densFunc) ∧
    (∀ (parents : List Population) (coeffs : List ℚ),
      coeffs.length = parents.length →
      (∀ q ∈ parents,
        q.CDF.length = (parents.headD default).CDF.length ∧
        q.densFunc.length = (parents.headD default).densFunc.length) →
      (∀ k, k < (parents.headD default).CDF.length →
        (createFromParentMixture parents coeffs).CDF.getD k 0 =
          ((coeffs.zip parents).map
            (fun mp => mp.1 * mp.2.CDF.getD k 0)).sum / coeffs.sum) ∧
      (∀ k, k < (parents.headD default).densFunc.length →
        (createFromParentMixture parents coeffs).densFunc.getD k 0 =
          ((coeffs.zip parents).map
            (fun mp => mp.1 * mp.2.densFunc.getD k 0)).sum / coeffs.sum)) := by
  constructor
  · intro p
    have hres : mixLoop [((1/2 : ℚ), p), ((1/2 : ℚ), p)]
        (List.replicate p.CDF.length 0) (List.replicate p.densFunc.length 0) =
        ((0 : ℚ) + 1/2 + 1/2,
         p.CDF.map (fun x => ((1/2 : ℚ) + 1/2) * x),
         p.densFunc.map (fun x => ((1/2 : ℚ) + 1/2) * x)) := by
      simp only [mixLoop, List.foldl_cons, List.foldl_nil, mixStep]
      rw [zipWith_addMul_replicate, zipWith_addMul_replicate,
        zipWith_addMul_map, zipWith_addMul_map]
    constructor
    · have h1 : (createFromParentMixture [p, p] [1/2, 1/2]).CDF =
          (p.CDF.map (fun x => ((1/2 : ℚ) + 1/2) * x)).map
            (fun x => x / ((0 : ℚ) + 1/2 + 1/2)) := by
        simp only [createFromParentMixture, List.headD_cons, List.zip_cons_cons,
          List.zip_nil_right, hres]
      rw [h1, List.map_map]
      norm_num
      simp only [Function.comp_def]
      exact List.map_id' _
    · have h1 : (createFromParentMixture [p, p] [1/2, 1/2]).densFunc =
          (p.densFunc.map (fun x => ((1/2 : ℚ) + 1/2) * x)).map
            (fun x => x / ((0 : ℚ) + 1/2 + 1/2)) := by
        simp only [createFromParentMixture, List.headD_cons, List.zip_cons_cons,
          List.zip_nil_right, hres]
      rw [h1, List.map_map]
      norm_num
      simp only [Function.comp_def]
      exact List.map_id' _
  · intro parents coeffs hl hlens
    have hpair : ∀ q ∈ coeffs.zip parents,
        q.2.CDF.length = (parents.headD default).CDF.length ∧
        q.2.densFunc.length = (parents.headD default).densFunc.length :=
      fun q hq => hlens q.2 (List.of_mem_zip hq).2
    obtain ⟨ha, hb, hc, hd, he⟩ := mixFold_spec (coeffs.zip parents) _ _ hpair
      (0, List.replicate (parents.headD default).CDF.length 0,
        List.replicate (parents.headD default).densFunc.length 0)
      (by simp) (by simp)
    have hsum : ((coeffs.zip parents).foldl mixStep
        (0, List.replicate (parents.headD default).CDF.length 0,
          List.replicate (parents.headD default).densFunc.length 0)).1 =
        coeffs.sum := by
      rw [ha, List.map_fst_zip _ _ (le_of_eq hl), zero_add]
    constructor
    · intro k hk
      simp only [createFromParentMixture, mixLoop]
      rw [getD_map_div, hd k hk, getD_replicate_zero, zero_add, hsum]
    · intro k hk
      simp only [createFromParentMixture, mixLoop]
      rw [getD_map_div, he k hk, getD_replicate_zero, zero_add, hsum]

/-- Witness for C6 at a concrete input. -/
theorem C6_witness :
    (createFromParentMixture [({ CDF := [2], densFunc := [4] } : Population)]
        [3]).CDF.getD 0 0 =
      (([(3 : ℚ)].zip [({ CDF := [2], densFunc := [4] } : Population)]).map
        (fun mp => mp.1 * mp.2.CDF.getD 0 0)).sum / ([(3 : ℚ)].sum) :=
  ((C6_mixture_linearity.2 [{ CDF := [2], densFunc := [4] }] [3]
    (by decide) (by decide)).1 0 (by decide))

/-! ## Claim C9 -/

lemma filter_zip_len (s : List ℕ) (ps : List (ℚ × ℚ)) (b : ℕ)
    (h : s.length = ps.length) :
    ((s.zip ps).filter (fun x => x.1 == b)).length = s.count b := by
  induction s generalizing ps with
  | nil => simp
  | cons a t ih =>
    cases ps with
    | nil => simp at h
    | cons p pt =>
      have ht := ih pt (by simpa using h)
      by_cases hab : a = b
      · subst hab
        simp [List.filter_cons, List.count_cons, ht]
      · simp [List.filter_cons, List.count_cons, hab, ht]

lemma filter_partition_perm (s : List ℕ) (ps : List (ℚ × ℚ))
    (h : s.length = ps.length) (hs : ∀ x ∈ s, x = 0 ∨ x = 1) :
    (((s.zip ps).filter (fun x => x.1 == 0)).map Prod.snd ++
      ((s.zip ps).filter (fun x => x.1 == 1)).map Prod.snd).Perm ps := by
  have h1 : (s.zip ps).filter (fun x => x.1 == 1) =
      (s.zip ps).filter (fun x => !(x.1 == 0)) := by
    apply List.filter_congr
    intro x hx
    rcases hs x.1 (List.of_mem_zip hx).1 with h0 | h0 <;> simp [h0]
  rw [h1, ← List.map_append]
  have h2 := (List.filter_append_perm (fun x => x.1 == 0) (s.zip ps)).map
    (Prod.snd : ℕ × (ℚ × ℚ) → ℚ × ℚ)
  rwa [List.map_snd_zip s ps (le_of_eq h.symm)] at h2

/-- C9: for every permutation trial, the re-labeled populations preserve
the original class sizes (`|pop1|` zeros and `|pop2|` ones in the shuffled
label vector) and their (age, error) pairs exactly partition the pooled
data: the first trial population has `n1` pairs, the second `n2`, and
their concatenation is a permutation of the pooled pairs. -/
theorem C9_trial_partition (n1 n2 : ℕ) (shuffled : List ℕ)
    (pooled : List (ℚ × ℚ))
    (hperm : shuffled.Perm (List.replicate n1 0 ++ List.replicate n2 1))
    (hlen : pooled.length = n1 + n2) :
    (trialPops shuffled pooled).1.length = n1 ∧
    (trialPops shuffled pooled).2.length = n2 ∧
    ((trialPops shuffled pooled).1 ++
      (trialPops shuffled pooled).2).Perm pooled := by
  have hslen : shuffled.length = n1 + n2 := by simpa using hperm.length_eq
  have hsp : shuffled.length = pooled.length := by omega
  have hc0 : shuffled.count 0 = n1 := by
    rw [hperm.count_eq]
    simp [List.count_append, List.count_replicate]
  have hc1 : shuffled.count 1 = n2 := by
    rw [hperm.count_eq]
    simp [List.count_append, List.count_replicate]
  have hmem : ∀ x ∈ shuffled, x = 0 ∨ x = 1 := by
    intro x hx
    have hx' := hperm.mem_iff.mp hx
    rcases List.mem_append.mp hx' with h | h
    · exact Or.inl (List.eq_of_mem_replicate h)
    · exact Or.inr (List.eq_of_mem_replicate h)
  refine ⟨?_, ?_, ?_⟩
  · show (((shuffled.zip pooled).filter
        (fun x => x.1 == 0)).map Prod.snd).length = n1
    rw [List.length_map, filter_zip_len shuffled pooled 0 hsp, hc0]
  · show (((shuffled.zip pooled).filter
        (fun x => x.1 == 1)).map Prod.snd).length = n2
    rw [List.length_map, filter_zip_len shuffled pooled 1 hsp, hc1]
  · exact filter_partition_perm shuffled pooled hsp hmem

/-- Witness for C9 at a concrete input. -/
theorem C9_witness :
    (trialPops [1, 0] [(1, 2), (3, 4)]).1.length = 1 ∧
    (trialPops [1, 0] [(1, 2), (3, 4)]).2.length = 1 ∧
    ((trialPops [1, 0] [(1, 2), (3, 4)]).1 ++
      (trialPops [1, 0] [(1, 2), (3, 4)]).2).Perm [(1, 2), (3, 4)] :=
  C9_trial_partition 1 1 [1, 0] [(1, 2), (3, 4)] (by decide) (by decide)

/-! ## Claim C8 -/

set_option maxRecDepth 8000 in
/-- C8, evaluated at the failing input `ages = [100]`, `errors = [1]`,
cumulative call supplied with `tmin = 0`, `tmax = 10`, `delt = 1`: the CDF
axis honours the supplied parameters (`arange(0, 10, 1)`, 10 points), but
the implicitly triggered density build (`self.calcDF()` on line 450, with
no keyword arguments) runs on the data-derived default axis
`arange(97, 103, 6/1000)` (1000 points), NOT on the supplied axis — so the
integrated CDF is accumulated over a different axis and its length does
not even match the CDF axis it is stored next to. -/
lemma arange_length (tmin tmax delt : ℚ) :
    (arange tmin tmax delt).length = (Rat.ceil ((tmax - tmin) / delt)).toNat := by
  simp [arange]

set_option maxRecDepth 8000 in
/-- C8, evaluated at the failing input `ages = [100]`, `errors = [1]`,
cumulative call supplied with `tmin = 0`, `tmax = 10`, `delt = 1`: the CDF
axis honours the supplied parameters (`arange(0, 10, 1)`, 10 points), but
the implicitly triggered density build (`self.calcDF()` on line 450, with
no keyword arguments) runs on the data-derived default axis
`arange(97, 103, 6/1000)` (1000 points), NOT on the supplied axis — so the
integrated CDF is accumulated over a different axis, and its length (that
of the density axis) does not even match the CDF axis it is stored next
to. -/
theorem C8_integratedPDF_ignores_supplied_axis :
    (calcCDF_integratedPDF_axes [100] [1]
      { tmin := some 0, tmax := some 10, delt := some 1 }).1 =
      arange 0 10 1 ∧
    (calcCDF_integratedPDF_axes [100] [1]
      { tmin := some 0, tmax := some 10, delt := some 1 }).2.1 = 6/1000 ∧
    (calcCDF_integratedPDF_axes [100] [1]
      { tmin := some 0, tmax := some 10, delt := some 1 }).2.2 =
      arange 97 103 (6/1000) ∧
    (calcCDF_integratedPDF_axes [100] [1]
      { tmin := some 0, tmax := some 10, delt := some 1 }).1.length = 10 ∧
    (calcCDF_integratedPDF_axes [100] [1]
      { tmin := some 0, tmax := some 10, delt := some 1 }).2.2.length
      = 1000 ∧
    (calcCDF_integratedPDF_axes [100] [1]
      { tmin := some 0, tmax := some 10, delt := some 1 }).2.2 ≠
      (calcCDF_integratedPDF_axes [100] [1]
        { tmin := some 0, tmax := some 10, delt := some 1 }).1 := by
  have h1 : (calcCDF_integratedPDF_axes [100] [1]
      { tmin := some 0, tmax := some 10, delt := some 1 }).1 =
      arange 0 10 1 := rfl
  have hd : (calcCDF_integratedPDF_axes [100] [1]
      { tmin := some 0, tmax := some 10, delt := some 1 }).2.1 =
      6/1000 := by
    with_unfolding_all decide
  have h2 : (calcCDF_integratedPDF_axes [100] [1]
      { tmin := some 0, tmax := some 10, delt := some 1 }).2.2 =
      arange 97 103 (6/1000) := by
    show (getTimeAxisOfDF [100] [1] {}).2 = arange 97 103 (6/1000)
    have e1 : ([100] : List ℚ).getD (argminIdx [100]) 0 -
        3 * ([1] : List ℚ).getD (argminIdx [100]) 0 = 97 := by
      with_unfolding_all decide
    have e2 : ([100] : List ℚ).getD (argmaxIdx [100]) 0 +
        3 * ([1] : List ℚ).getD (argmaxIdx [100]) 0 = 103 := by
      with_unfolding_all decide
    simp only [getTimeAxisOfDF, e1, e2]
    norm_num
  have hl1 : (arange (0 : ℚ) 10 1).length = 10 := by
    rw [arange_length]
    with_unfolding_all decide
  have hl2 : (arange (97 : ℚ) 103 (6/1000)).length = 1000 := by
    rw [arange_length]
    with_unfolding_all decide
  refine ⟨h1, hd, h2, by rw [h1, hl1], by rw [h2, hl2], ?_⟩
  intro h
  have := congrArg List.length h
  rw [h1, h2, hl1, hl2] at this
  exact absurd this (by decide)

/-! ## Claim C7 -/

/-- C7: the claim describes the documented likeness formula
`1 − Σ|PDF1 − PDF2|/2`, but the source's axis guard
(`populationMetrics.py`, line 194) reads `pop1._tAxisPDF_`, an attribute
never assigned anywhere in the repository (the class stores `_tAxisDF_`),
so `likeness` raises `AttributeError` on every pair of populations and
never reaches its return expression — evaluated here both universally and
at a concrete pair of normalized single-point populations. -/
theorem C7_likeness_attribute_error :
    (∀ pop1 pop2 : Population, likeness pop1 pop2 =
      .error "AttributeError: population object has no attribute _tAxisPDF_") ∧
    likeness { tAxisDF := [0], densFunc := [1] }
        { tAxisDF := [0], densFunc := [1] } =
      .error "AttributeError: population object has no attribute _tAxisPDF_" :=
  ⟨fun _ _ => rfl, rfl⟩

/-! ## Claim C5 -/

lemma sum_map_div_real (l : List ℝ) (c : ℝ) :
    (l.map (fun x => x / c)).sum = l.sum / c := by
  induction l with
  | nil => simp
  | cons a t ih => simp [ih, add_div]

/-- C5 amended, `pdp` part: the summed-error density is renormalized by
dividing through `sum(pdp) * Δt`, so whenever that normalizer is nonzero
the resulting estimate has Riemann sum exactly 1. -/
theorem C5_pdp_normalized (ages errors tAxisDF : List ℝ) (deltDF : ℝ)
    (h : (rawPDP ages errors tAxisDF).sum * deltDF ≠ 0) :
    (getPDP ages errors tAxisDF deltDF).sum * deltDF = 1 := by
  simp only [getPDP]
  rw [sum_map_div_real]
  have heq : (rawPDP ages errors tAxisDF).sum /
      ((rawPDP ages errors tAxisDF).sum * deltDF) * deltDF =
      ((rawPDP ages errors tAxisDF).sum * deltDF) /
        ((rawPDP ages errors tAxisDF).sum * deltDF) := by
    ring
  rw [heq, div_self h]

/-- Witness for C5 at a concrete input: one grain of age 0 and error 1 on
the single-point axis `[0]` with `Δt = 1`. -/
theorem C5_witness :
    (rawPDP [0] [1] [0]).sum * 1 ≠ 0 ∧
    (getPDP [0] [1] [0] 1).sum * 1 = 1 := by
  have h : (rawPDP [(0 : ℝ)] [1] [0]).sum * 1 ≠ 0 := by
    simp only [rawPDP, List.zip_cons_cons, List.zip_nil_right, List.map_cons,
      List.map_nil, List.sum_cons, List.sum_nil, normDistribution, mul_one]
    norm_num [Real.exp_zero]
    positivity
  exact ⟨h, C5_pdp_normalized [0] [1] [0] 1 h⟩

/-- C5 counterexample, `kde` part: the kernel density estimate is NOT
renormalized.  One grain of age 0, bandwidth 1, default Gaussian kernel,
single-point axis `[0]` with `Δt = 1`: the Riemann sum is
`1/sqrt(2*pi) < 1`, not 1. -/
theorem C5_kde_counterexample :
    (getKDE gaussKernel 1 [0] [0]).sum * 1 ≠ 1 := by
  have h2pi : (1 : ℝ) < 2 * Real.pi := by nlinarith [Real.pi_gt_three]
  have hs : 1 < Real.sqrt (2 * Real.pi) := by
    refine (Real.lt_sqrt (by norm_num)).mpr ?_
    nlinarith [Real.pi_gt_three]
  have h0 : 0 < Real.sqrt (2 * Real.pi) := lt_trans one_pos hs
  have hlt : 1 / Real.sqrt (2 * Real.pi) < 1 := by
    rw [div_lt_one h0]
    exact hs
  have hval : (getKDE gaussKernel 1 [0] [0]).sum * 1 =
      1 / Real.sqrt (2 * Real.pi) := by
    simp only [getKDE, gaussKernel, List.map_cons, List.map_nil,
      List.sum_cons, List.sum_nil, List.length_cons, List.length_nil]
    norm_num [Real.exp_zero]
  rw [hval]
  exact ne_of_lt hlt

end SedimentUnmixing
